import Mathlib

/-!
Shallow embedding of the `rust-trait-in-cpp` demo (src/Add.h, src/Point.h,
src/main.cpp).

The C++ program only ever computes with IEEE-754 binary32 (`float`) values.
Every binary32 finite value is a dyadic rational `m * 2^e`; we embed `float`
as such a pair with the mantissa kept in normalized form (|m| in
[2^23, 2^24), or m = 0), and embed the native `float` addition as
exact dyadic addition followed by rounding to nearest, ties to even.
This coincides with binary32 arithmetic on the (normal, far from
overflow/underflow) range exercised by the program; infinities, NaNs and
subnormals are outside the modelled range and never arise here.

All arithmetic is over ℤ/ℕ so that every concrete computation reduces in
the kernel.
-/

/-- Fuel-driven floor logarithm: `ilogNat fuel base n` is `⌊log_base n⌋`
for `n ≥ 1`, `base ≥ 2`, provided `fuel` bounds the number of divisions. -/
def ilogNat : ℕ → ℕ → ℕ → ℕ
  | 0, _, _ => 0
  | fuel + 1, base, n => if n < base then 0 else ilogNat fuel base (n / base) + 1

/-- Round the rational `a / b` (with `b > 0`) to the nearest integer,
ties to even. -/
def rneInt (a b : ℤ) : ℤ :=
  let f := a.fdiv b
  let r := a - f * b
  if 2 * r < b then f
  else if b < 2 * r then f + 1
  else if f % 2 = 0 then f else f + 1

/-- Floor logarithm of a positive rational: `qfloorLog base a b` is
`⌊log_base (a / b)⌋` for `a, b > 0` and `base ≥ 2`. -/
def qfloorLog (base : ℕ) (a b : ℤ) : ℤ :=
  if b ≤ a then (ilogNat 1000 base (a.fdiv b).toNat : ℤ)
  else
    let e := ilogNat 1000 base (b.fdiv a).toNat
    if a * (base : ℤ) ^ e = b then -(e : ℤ) else -(e : ℤ) - 1

/-- A binary32 (`float`) value, embedded as the dyadic rational
`m * 2^e`, with `m` kept normalized (`|m| ∈ [2^23, 2^24)`, or `m = 0`,
and for round results `e = exponent - 23`). -/
structure F32 where
  m : ℤ
  e : ℤ
deriving DecidableEq, Repr

/-- Round the positive rational `a / b` (`a, b > 0`) to the nearest
binary32 value (round to nearest, ties to even), with unbounded exponent
range (no overflow/subnormal handling; the program stays far inside the
normal range). -/
def f32roundPos (a b : ℤ) : F32 :=
  let e := qfloorLog 2 a b
  let m :=
    if 23 ≤ e then rneInt a (b * 2 ^ (e - 23).toNat)
    else rneInt (a * 2 ^ (23 - e).toNat) b
  if m = 2 ^ 24 then ⟨2 ^ 23, e - 22⟩ else ⟨m, e - 23⟩

/-- The binary32 value nearest to the rational `a / b` (`b > 0`):
the embedding of a C++ `float` literal or of the rounding step of a
`float` operation. -/
def f32ofRat (a b : ℤ) : F32 :=
  if a = 0 then ⟨0, 0⟩
  else if a < 0 then
    let p := f32roundPos (-a) b
    ⟨-p.m, p.e⟩
  else f32roundPos a b

/-- Numerator of the exact rational value of a binary32 number. -/
def F32.num (x : F32) : ℤ :=
  if 0 ≤ x.e then x.m * 2 ^ x.e.toNat else x.m

/-- Denominator of the exact rational value of a binary32 number. -/
def F32.den (x : F32) : ℤ :=
  if 0 ≤ x.e then 1 else 2 ^ (-x.e).toNat

/-- The exact rational value of a binary32 number. -/
def F32.toRat (x : F32) : ℚ :=
  if 0 ≤ x.e then ((x.m * 2 ^ x.e.toNat : ℤ) : ℚ)
  else (x.m : ℚ) / ((2 ^ (-x.e).toNat : ℕ) : ℚ)

/-- Native `float` addition: exact dyadic sum, rounded to nearest
binary32 (ties to even). This is the platform `+` on `float` operands. -/
def f32add (x y : F32) : F32 :=
  let e := min x.e y.e
  let s := x.m * 2 ^ (x.e - e).toNat + y.m * 2 ^ (y.e - e).toNat
  if 0 ≤ e then f32ofRat (s * 2 ^ e.toNat) 1 else f32ofRat s (2 ^ (-e).toNat)

instance : Add F32 := ⟨f32add⟩

/-- A `w`-bit unsigned machine integer: a natural number value, with the
platform `+` wrapping modulo `2^w`. -/
structure UIntW (w : ℕ) where
  val : ℕ
deriving DecidableEq

instance {w : ℕ} : Add (UIntW w) := ⟨fun a b => ⟨(a.val + b.val) % 2 ^ w⟩⟩

/-!
Output formatting. `std::cout` prints a `float` with the default settings:
general ("%g"-style) format with 6 significant digits, trailing zeros (and
a then-dangling decimal point) removed. We embed that formatter; `main`
only ever prints values whose decimal exponent lies in the fixed-notation
range `-4 ≤ X < 6`.
-/

/-- The decimal digit `d` (`d < 10`) as a character. -/
def digitChar (d : ℕ) : Char := Char.ofNat (48 + d)

/-- Fuel-driven decimal digits of a natural number, most significant
first. -/
def natDigits : ℕ → ℕ → List Char
  | 0, _ => []
  | fuel + 1, n => if n < 10 then [digitChar n] else natDigits fuel (n / 10) ++ [digitChar (n % 10)]

/-- Remove trailing zero characters. -/
def dropTrailingZeros (ds : List Char) : List Char :=
  (ds.reverse.dropWhile (fun c => c = '0')).reverse

/-- Fixed-notation rendering of `n / 10^p` with `p` digits after the
decimal point, trailing zeros (and a then-empty fractional part) removed:
the fixed branch of the default stream formatting. -/
def fmtFixed (n p : ℕ) : String :=
  let ds0 := natDigits 64 n
  let ds := List.replicate (p + 1 - ds0.length) '0' ++ ds0
  let ip := ds.take (ds.length - p)
  let fp := dropTrailingZeros (ds.drop (ds.length - p))
  if fp = [] then String.mk ip else String.mk (ip ++ '.' :: fp)

/-- Exponent suffix digits: sign followed by at least two digits. -/
def expDigits (x : ℤ) : String :=
  let ds := natDigits 64 x.natAbs
  let ds := if ds.length < 2 then List.replicate (2 - ds.length) '0' ++ ds else ds
  String.mk ((if x < 0 then '-' else '+') :: ds)

/-- Scientific rendering of a 6-digit mantissa `mant` with decimal
exponent `X`, trailing mantissa zeros removed. -/
def fmtSci (mant : ℕ) (X : ℤ) : String :=
  let ds := natDigits 64 mant
  let hd := ds.take 1
  let tl := dropTrailingZeros (ds.drop 1)
  let mstr := if tl = [] then hd else hd ++ '.' :: tl
  String.mk mstr ++ "e" ++ expDigits X

/-- Default stream formatting ("%.6g") of the positive rational
`a / b` (`a, b > 0`). -/
def fmtPos (a b : ℤ) : String :=
  let X := qfloorLog 10 a b
  if -4 ≤ X ∧ X < 6 then
    let p := (5 - X).toNat
    fmtFixed (rneInt (a * 10 ^ p) b).toNat p
  else
    let m := if X ≤ 5 then rneInt (a * 10 ^ (5 - X).toNat) b else rneInt a (b * 10 ^ (X - 5).toNat)
    if m = 10 ^ 6 then fmtSci (10 ^ 5) (X + 1) else fmtSci m.toNat X

/-- What `std::cout << x` prints for a `float` value `x` under the default
stream settings. -/
def fmtF32 (x : F32) : String :=
  if x.m = 0 then "0"
  else if x.m < 0 then "-" ++ fmtPos (-x.num) x.den
  else fmtPos x.num x.den

/-!
The trait machinery of src/Add.h.

The C++ `Add<Self, Rhs, Out>` struct of a specialization stores a `Self`
object `s` (taken by value in the constructor) and exposes a method
`add(Rhs) -> Out`. We embed each specialization as a value of `AddImpl`,
the `add` method with the stored object made an explicit first argument
(`Add<Self, Rhs, Out>(s).add(rhs)` becomes `impl.add s rhs`). The name
`Add` itself is taken by the Lean typeclass we use for the native `+`,
hence the name `AddImpl`.
-/

/-- A specialization of the `Add` trait struct for `(Self, Rhs, Out)`:
its `add` method, with the stored `self` object explicit. -/
structure AddImpl (Self Rhs Out : Type) where
  add : Self → Rhs → Out

/-- The generic `operator+` of src/Add.h: for any `Self` satisfying
`AddTrait<Self, Rhs, Out>`, the expression `lhs + rhs` means
`Add<Self, Rhs, Out>(lhs).add(rhs)`. -/
def opAdd {Self Rhs Out : Type} (impl : AddImpl Self Rhs Out) (lhs : Self) (rhs : Rhs) : Out :=
  impl.add lhs rhs

/-- The primitive specialization `Add<Self>` of src/Add.h for built-in
numeric `Self` (integral or floating point): `add(other)` returns
`self + other` under the platform's native `+`, carried here by the `Add`
typeclass instance of the carrier (wrapping modulo `2^w` for `UIntW w`,
binary32 round-to-nearest for `F32`). -/
def primAddImpl (T : Type) [Add T] : AddImpl T T T :=
  ⟨fun self other => self + other⟩

/-- The `Point` struct of src/Point.h. -/
structure Point (T : Type) where
  x : T
  y : T
deriving DecidableEq, Repr

/-- The generic specialization `Add<Point<T>>` of src/Point.h, available
whenever `T` itself satisfies `AddTrait<T>`: component-wise addition,
each component sum computed by `T`'s own `add` (through `operator+`). -/
def pointAddImpl {T : Type} (tImpl : AddImpl T T T) : AddImpl (Point T) (Point T) (Point T) :=
  ⟨fun self other =>
    { x := opAdd tImpl self.x other.x
      y := opAdd tImpl self.y other.y }⟩

/-- The full specialization `Add<Point<float>, float, float>` of
src/Point.h: `add(rhs)` returns `self.x + rhs` (native `float` `+`); the
`y` coordinate does not participate. -/
def pointFloatAddImpl : AddImpl (Point F32) F32 F32 :=
  ⟨fun self rhs => self.x + rhs⟩

/-- The dynamic-dispatch wrapper `Add<Dyn, Rhs, Out>` (alias
`DynAdd<Rhs, Out>`) of src/Add.h: it stores only the single-argument
callable `add`. -/
structure DynAdd (Rhs Out : Type) where
  add : Rhs → Out

/-- The constructor of `Add<Dyn, Rhs, Out>`: from a `Self` value `s`
(with `Self` satisfying `AddTrait<Self, Rhs, Out>`), it stores the
closure `[s](rhs) { return Add<Self, Rhs, Out>(s).add(rhs); }`, which
closes over its own by-value snapshot of `s`. -/
def dynOf {Self Rhs Out : Type} (impl : AddImpl Self Rhs Out) (s : Self) : DynAdd Rhs Out :=
  ⟨fun rhs => opAdd impl s rhs⟩

/-- The `operator+` overload of src/Add.h for the dynamic wrapper:
`lhs + rhs` means `lhs.add(rhs)`. -/
def opAddDyn {Rhs Out : Type} (lhs : DynAdd Rhs Out) (rhs : Rhs) : Out :=
  lhs.add rhs

/-!
The driver, src/main.cpp. Each `float` literal is embedded as the
binary32 value nearest to its decimal denotation.
-/

/-- The point `a { .x = 1.f, .y = 1.f }` of `main`. -/
def mainA : Point F32 := { x := f32ofRat 1 1, y := f32ofRat 1 1 }

/-- The point `b { .x = 2.f, .y = 2.f }` of `main`. -/
def mainB : Point F32 := { x := f32ofRat 2 1, y := f32ofRat 2 1 }

/-- `auto sum = a + b;` — static dispatch through
`Add<Point<float>>`, whose component sums go through `Add<float>`. -/
def mainSum : Point F32 := opAdd (pointAddImpl (primAddImpl F32)) mainA mainB

/-- `float floating_point = 1.2f;`. -/
def floating_point : F32 := f32ofRat 6 5

/-- `std::vector<DynAdd<float, float>> v_lhs = { floating_point, a };` —
the first element wraps the raw `float` through the primitive
`Add<float>`, the second wraps `a` through
`Add<Point<float>, float, float>`. -/
def v_lhs : List (DynAdd F32 F32) :=
  [dynOf (primAddImpl F32) floating_point, dynOf pointFloatAddImpl mainA]

/-- The lines `main` writes to standard output: first
`sum.x ' ' sum.y`, then, for each element of `v_lhs` in order,
`"sum = " << (lhs + 1.2f)`. -/
def mainLines : List String :=
  (fmtF32 mainSum.x ++ " " ++ fmtF32 mainSum.y)
    :: v_lhs.map (fun lhs => "sum = " ++ fmtF32 (opAddDyn lhs (f32ofRat 6 5)))

/-- The whole observable behaviour of the process: the standard-output
lines and the exit code (`return 0;`). -/
def mainRun : List String × ℤ := (mainLines, 0)

/-!
Claims.
-/

/-- C1: for every coordinate type `T` with an `Add` capability and all
points `a`, `b` of `Point<T>`, `a + b` is computed component-wise:
`(a+b).x = a.x + b.x` and `(a+b).y = a.y + b.y`, each coordinate sum
going through `T`'s own `add` implementation (via `operator+`). -/
theorem pointAdd_componentwise (T : Type) (tImpl : AddImpl T T T) (a b : Point T) :
    (opAdd (pointAddImpl tImpl) a b).x = opAdd tImpl a.x b.x ∧
      (opAdd (pointAddImpl tImpl) a b).y = opAdd tImpl a.y b.y :=
  ⟨rfl, rfl⟩

/-- C2: the specialized `Add<Point<float>, float, float>` returns
`p.x + r` under native `float` addition, and the result never depends on
the `y` coordinate. -/
theorem pointFloatAdd_scalar_contract :
    (∀ (p : Point F32) (r : F32), opAdd pointFloatAddImpl p r = f32add p.x r) ∧
      (∀ (x y y' r : F32),
        opAdd pointFloatAddImpl ⟨x, y⟩ r = opAdd pointFloatAddImpl ⟨x, y'⟩ r) :=
  ⟨fun _ _ => rfl, fun _ _ _ _ => rfl⟩

/-- C3: for every type `V` with a static implementation
`Add<V, Rhs, Out>`, every value `v` and every `rhs`, the dynamic wrapper
built from `v` returns on `add(rhs)` exactly what the static
implementation `Add<V, Rhs, Out>(v).add(rhs)` returns. -/
theorem dyn_refines_static (V Rhs Out : Type) (impl : AddImpl V Rhs Out) (v : V) (rhs : Rhs) :
    (dynOf impl v).add rhs = opAdd impl v rhs :=
  rfl

/-- C4: in the heterogeneous sequence `v_lhs` (a wrapped `float` and a
wrapped `Point<float>`), adding a scalar `r` to each element in order
dispatches to that element's own implementation: the wrapped float
`floating_point` yields `floating_point + r` (native `float` addition)
and the wrapped point `a` yields `a.x + r` (the specialized
point-plus-scalar implementation). -/
theorem hetero_dispatch_per_element (r : F32) :
    v_lhs.map (fun lhs => opAddDyn lhs r) = [f32add floating_point r, f32add mainA.x r] :=
  rfl

/-- C5: the primitive implementation `Add<Self>` for built-in numeric
types returns `self + rhs` under the platform's native arithmetic with no
special handling: for a `w`-bit unsigned integer type that is addition
modulo `2^w`, and for `float` it is binary32 round-to-nearest
addition. -/
theorem primAdd_native_semantics :
    (∀ (w : ℕ) (a b : UIntW w),
        (opAdd (primAddImpl (UIntW w)) a b).val = (a.val + b.val) % 2 ^ w) ∧
      (∀ (x y : F32), opAdd (primAddImpl F32) x y = f32add x y) :=
  ⟨fun _ _ _ => rfl, fun _ _ => rfl⟩

/-- C6: in the driver, `a + b` with `a = {1.f, 1.f}` and
`b = {2.f, 2.f}` yields the point whose coordinates are both the `float`
value 3 (exactly the rational 3), and the first printed line is
"3 3". -/
theorem main_static_sum_and_line1 :
    mainSum = ⟨f32ofRat 3 1, f32ofRat 3 1⟩ ∧
      F32.toRat mainSum.x = 3 ∧ F32.toRat mainSum.y = 3 ∧
      mainLines.head? = some "3 3" := by
  have hs : mainSum = ⟨⟨12582912, -22⟩, ⟨12582912, -22⟩⟩ := by decide
  have ht : F32.toRat ⟨12582912, -22⟩ = 3 := by
    have h : Int.toNat 22 = 22 := rfl
    norm_num [F32.toRat, h]
  exact ⟨by decide, by rw [hs]; exact ht, by rw [hs]; exact ht, by decide⟩

/-- C7: in the dynamic-dispatch loop, the wrapper around the float
`1.2f` plus the scalar `1.2f` yields exactly the `float` value of the
literal 2.4 and prints "sum = 2.4"; the wrapper around
`Point{1.f, 1.f}` plus `1.2f` yields exactly the `float` value of the
literal 2.2 (only `x` participates) and prints "sum = 2.2", in that
order. -/
theorem main_dyn_sums_and_lines :
    opAddDyn (dynOf (primAddImpl F32) floating_point) (f32ofRat 6 5) = f32ofRat 12 5 ∧
      opAddDyn (dynOf pointFloatAddImpl mainA) (f32ofRat 6 5) = f32ofRat 11 5 ∧
      mainLines.drop 1 = ["sum = 2.4", "sum = 2.2"] := by
  decide

/-- C8 counterexample: the program's standard output does not consist of
two printed lines — it has three (one static line plus one per element of
the two-element dynamic collection). -/
theorem main_output_not_two_lines : ¬ (mainRun.1.length = 2) := by
  decide

/-- C8 (amended): the program's only output is `1 + N` lines where `N`
is the number of dynamic-wrapper elements (three lines here): line 1 is
the sum point's two space-separated coordinates, and each following line,
one per element of `v_lhs` in order, reads `sum = <value>` where
`<value>` is the `float` result of adding `1.2f` to that element. -/
theorem main_output_shape :
    mainRun.1.length = 1 + v_lhs.length ∧
      mainRun.1.head? = some (fmtF32 mainSum.x ++ " " ++ fmtF32 mainSum.y) ∧
      mainRun.1.drop 1 =
        v_lhs.map (fun lhs => "sum = " ++ fmtF32 (opAddDyn lhs (f32ofRat 6 5))) :=
  ⟨by decide, rfl, rfl⟩

/-- C9: the run of `main` is total — it evaluates completely to the
concrete three output lines and exit code 0, with no error path. -/
theorem main_terminates_exit_zero :
    mainRun = (["3 3", "sum = 2.4", "sum = 2.2"], 0) := by
  decide

/-- C10: all operations are value-semantic toward their operands: after
`sum = a + b` the point `a` that gets wrapped into the dynamic collection
still holds its original coordinates `{1.f, 1.f}`; the wrapper built over
it in `v_lhs` computes from that original value; and in general a dynamic
wrapper's result depends only on the snapshot `s` captured at
construction time (through `s.x` for the point-plus-scalar case). -/
theorem value_semantics_snapshot :
    mainA = ⟨f32ofRat 1 1, f32ofRat 1 1⟩ ∧
      (∀ (r : F32), opAddDyn (v_lhs.get ⟨1, by decide⟩) r = f32add (f32ofRat 1 1) r) ∧
      (∀ (s : Point F32) (r : F32), (dynOf pointFloatAddImpl s).add r = f32add s.x r) :=
  ⟨rfl, fun _ => rfl, fun _ _ => rfl⟩
